import Mathlib

/-!
Shallow embedding of the robot-rock servo control sources
(state/settle-servos.js, state/normalize-input.js, state/lean.js and the
main entry file) together with proofs of the specification claims about
them.  JavaScript numbers are modelled as rationals; the shared mutable
servo set is modelled as a list of servo values threaded through each
operation, and in-place mutation of a servo becomes an index-directed
update of that list.  Hardware writes (pwm.setPwm calls) are collected in
an output list.
-/

/-- Position triple of one servo: the value last written to hardware, the
target set by gesture transforms, and the rest value. -/
structure Position where
  current : ℚ
  goal : ℚ
  neutral : ℚ

/-- Modelled from the spec: the PID controller implementation is not among
the sources.  Per the spec it is a stateful error-to-output mapper with
internal accumulated error terms, exposing one operation step(error) = delta
whose output depends on prior calls.  The internal memory is abstracted as
one rational accumulator acc together with an arbitrary update function
stepF taking the accumulator and the error to the delta and the new
accumulator. -/
structure Pid where
  acc : ℚ
  stepF : ℚ → ℚ → ℚ × ℚ

/-- Pid.step: the delta for the given error together with the controller
carrying its updated internal state. -/
def Pid.step (p : Pid) (error : ℚ) : ℚ × Pid :=
  let r := p.stepF p.acc error
  (r.1, { p with acc := r.2 })

/-- Servo: stable unique index identity, its PID controller instance and
its position triple. -/
structure Servo where
  index : ℕ
  pid : Pid
  position : Position

instance : Inhabited Servo :=
  ⟨{ index := 0, pid := { acc := 0, stepF := fun _ _ => (0, 0) },
     position := { current := 0, goal := 0, neutral := 0 } }⟩

/-- One joystick sample; after normalisation x and y hold the derived
vector components. -/
structure Joystick where
  x : ℚ
  y : ℚ

/-- The two joystick axes of an input sample. -/
structure Axes where
  left : Joystick
  right : Joystick

/-- An input sample: axes plus the pressed buttons (after normalisation a
set; membership is all the transforms use, so a list models it). -/
structure Input where
  axes : Axes
  buttonsPressed : List ℕ

instance : Inhabited Input :=
  ⟨{ axes := { left := ⟨0, 0⟩, right := ⟨0, 0⟩ }, buttonsPressed := [] }⟩

/-- The process-wide shared state.  servos is the list returned by the
collection's all() in its stable order.  Modelled from the spec: the
ServoCollection implementation is not among the sources; its leg grouping
is modelled as lists of pairs of servo indices, elbow first then shoulder,
for the left and the right side. -/
structure State where
  servos : List Servo
  legsLeft : List (ℕ × ℕ)
  legsRight : List (ℕ × ℕ)
  leaned : Bool
  settleServoFilter : Option (Servo → Bool)

/-- The context envelope threaded through one pipeline invocation. -/
structure Context where
  input : Input
  state : State
  timeSinceLastInput : Option ℚ
  timeSinceLastTick : Option ℚ

/-- A servo passes the settle filter when no filter is installed or the
installed predicate accepts it; mirrors the guard
if settleServoFilter and not settleServoFilter(servo) then continue. -/
def admits (filt : Option (Servo → Bool)) (s : Servo) : Bool :=
  match filt with
  | none => true
  | some f => f s

/-- Body of one iteration of the settleServos loop: error = goal minus
current, current advances by pid.step(error), and the hardware write
setPwm(index, 0, current) is recorded. -/
def settleOne (s : Servo) : Servo × ℕ × ℕ × ℚ :=
  let error := s.position.goal - s.position.current
  let r := s.pid.step error
  let current2 := s.position.current + r.1
  ({ s with pid := r.2, position := { s.position with current := current2 } },
   s.index, 0, current2)

/-- The settleServos loop over the servo list in collection order,
returning the updated servos and the hardware writes in visit order. -/
def settleServosList (filt : Option (Servo → Bool)) :
    List Servo → List Servo × List (ℕ × ℕ × ℚ)
  | [] => ([], [])
  | s :: rest =>
    let r := settleServosList filt rest
    if admits filt s then
      let u := settleOne s
      (u.1 :: r.1, u.2 :: r.2)
    else
      (s :: r.1, r.2)

/-- settleServos: one settler pass over the shared state; returns the
context it received (its servos updated in place) and the list of
pwm.setPwm(index, 0, current) calls made. -/
def settleServos (c : Context) : Context × List (ℕ × ℕ × ℚ) :=
  let r := settleServosList c.state.settleServoFilter c.state.servos
  ({ c with state := { c.state with servos := r.1 } }, r.2)

/-- The servo resulting from one settle visit. -/
def settleStep (s : Servo) : Servo := (settleOne s).1

/-- One tick of the settle timer, viewed on the context. -/
def tickOnce (c : Context) : Context := (settleServos c).1

/-- A purely proportional PID step function with gain k: step(error)
returns k times error and leaves the internal state unchanged. -/
def proportionalStepF (k : ℚ) : ℚ → ℚ → ℚ × ℚ := fun acc error => (k * error, acc)

/-- The servo s with its goal replaced by g; the value an in-place
assignment servo.position.goal = g leaves behind. -/
def goalSet (s : Servo) (g : ℚ) : Servo :=
  { s with position := { s.position with goal := g } }

/-- In-place mutation of the goal of the servo with identity i inside the
shared servo set, modelled as an index-directed update of the list. -/
def setServoGoal (servos : List Servo) (i : ℕ) (g : ℚ) : List Servo :=
  servos.map fun s => if s.index = i then goalSet s g else s

/-- The servo object the collection hands out for identity i. -/
def getServo (servos : List Servo) (i : ℕ) : Option Servo :=
  servos.find? fun s => s.index == i

/-- One goal assignment target.position.goal = scale(a, target) on the
servo with identity i (a no-op when no such servo exists, which a leg
pair of the running rig never hits). -/
def applyGoalWrite (scale : ℚ → Servo → ℚ) (a : ℚ)
    (servos : List Servo) (i : ℕ) : List Servo :=
  match getServo servos i with
  | some s => setServoGoal servos i (scale a s)
  | none => servos

/-- Body of one iteration of a leg loop in lean: the elbow goal is set to
scale(ea, elbow) and then the shoulder goal to scale(sa, shoulder), where
ea and sa are the already-signed axis values for this side. -/
def applyLeanPair (scale : ℚ → Servo → ℚ) (ea sa : ℚ)
    (servos : List Servo) (p : ℕ × ℕ) : List Servo :=
  applyGoalWrite scale sa (applyGoalWrite scale ea servos p.1) p.2

/-- The shouldLean branch of lean: left-leg pairs get elbow scale(-x, e)
and shoulder scale(y, sh); right-leg pairs get elbow scale(-x, e) and
shoulder scale(-y, sh). -/
def leanGoalsSet (scale : ℚ → Servo → ℚ) (x y : ℚ) (st : State) : State :=
  let s1 := st.legsLeft.foldl (applyLeanPair scale (-x) y) st.servos
  let s2 := st.legsRight.foldl (applyLeanPair scale (-x) (-y)) s1
  { st with servos := s2 }

/-- Modelled from the spec: the collection's legs.all() is not among the
sources; per the spec the leg grouping yields elbow-shoulder pairs, so
legs.all() covers exactly the indices appearing in the pairs of both
sides. -/
def leanLegIndices (st : State) : List ℕ :=
  (st.legsLeft ++ st.legsRight).flatMap fun p => [p.1, p.2]

/-- The edge branch of lean: every leg servo's goal is reset to its own
neutral value. -/
def leanReset (st : State) : State :=
  { st with servos := st.servos.map fun s =>
      if (leanLegIndices st).contains s.index then
        { s with position := { s.position with goal := s.position.neutral } }
      else s }

/-- The three things one lean call can do to the servo goals. -/
inductive LeanAction where
  | setGoals : LeanAction
  | resetGoals : LeanAction
  | noop : LeanAction
deriving DecidableEq, Inhabited

/-- Branch selection of lean: the if chain on shouldLean and the
persistent justLeaned flag. -/
def leanAction (justLeaned : Bool) (leanHeld : Bool) : LeanAction :=
  if leanHeld then .setGoals else if justLeaned then .resetGoals else .noop

/-- Effect of each lean branch on the shared state. -/
def leanApply (scale : ℚ → Servo → ℚ) (x y : ℚ) : LeanAction → State → State
  | .setGoals, st => leanGoalsSet scale x y st
  | .resetGoals, st => leanReset st
  | .noop, st => st

/-- lean from state/lean.js.  The module-level justLeaned flag is threaded
explicitly: the call takes the flag's prior value and returns its new value
(it always ends up equal to shouldLean) together with the new context,
whose state carries leaned = shouldLean.  scale stands for the external
scaleAxisToServo collaborator. -/
def lean (scale : ℚ → Servo → ℚ) (justLeaned : Bool) (c : Context) : Bool × Context :=
  let x := c.input.axes.right.x
  let y := c.input.axes.right.y
  let leanHeld := c.input.buttonsPressed.contains 4
  let st2 := leanApply scale x y (leanAction justLeaned leanHeld) c.state
  (leanHeld, { c with state := { st2 with leaned := leanHeld } })

/-- The context an input-arrival callback builds for the pipeline. -/
def mkStepContext (inp : Input) (st : State) (t : Option ℚ) : Context :=
  { input := inp, state := st, timeSinceLastInput := t, timeSinceLastTick := none }

/-- A sequence of lean calls threading the persistent justLeaned flag and
the shared state, recording which branch each call took. -/
def leanRun (scale : ℚ → Servo → ℚ) : Bool → State → List Input → List LeanAction × Bool × State
  | j, st, [] => ([], j, st)
  | j, st, inp :: rest =>
    let a := leanAction j (inp.buttonsPressed.contains 4)
    let r := lean scale j (mkStepContext inp st none)
    let q := leanRun scale r.1 r.2.state rest
    (a :: q.1, q.2.1, q.2.2)

/-- Whether the lean button (id 4) is pressed in the t-th input of a
sequence. -/
def pressedAt (inps : List Input) (t : ℕ) : Bool :=
  (inps.getD t default).buttonsPressed.contains 4

/-- vectorizeJoystick from state/normalize-input.js: the joystick sample
with the derived vector components spread over it; vec stands for the
external vectorFromJoystick collaborator. -/
def vectorizeJoystick (vec : Joystick → ℚ × ℚ) (j : Joystick) : Joystick :=
  { x := (vec j).1, y := (vec j).2 }

/-- normalizeInput from state/normalize-input.js: both axes are
vectorized and buttonsPressed becomes a set (duplicate-free, membership
preserved). -/
def normalizeInput (vec : Joystick → ℚ × ℚ) (c : Context) : Context :=
  { c with input :=
      { axes := { left := vectorizeJoystick vec c.input.axes.left,
                  right := vectorizeJoystick vec c.input.axes.right },
        buttonsPressed := c.input.buttonsPressed.dedup } }

/-- step from the main file: assert(normalizeInput), assert(lean),
assert(move), assert(stand).  Modelled from the spec: move and stand are
not among the sources; per the spec they are structurally identical
gesture transforms, so they are taken as arbitrary stage functions that
signal a ValidationFailure by returning an absent result (which makes
assert throw).  normalizeInput and lean always return a context.  The
result holds the new justLeaned flag, the returned state when every
assert passed, and the shared servo set as mutated by the stages that ran
before the pipeline stopped. -/
def step (vec : Joystick → ℚ × ℚ) (scale : ℚ → Servo → ℚ)
    (move stand : Context → Option Context) (j : Bool) (c : Context) :
    Bool × Option State × List Servo :=
  let c1 := normalizeInput vec c
  let r := lean scale j c1
  match move r.2 with
  | none => (r.1, none, r.2.state.servos)
  | some c3 =>
    match stand c3 with
    | none => (r.1, none, c3.state.servos)
    | some c4 => (r.1, some c4.state, c4.state.servos)

/-- The input-arrival callback of main: state = step(context).  When step
throws, the assignment does not happen and the callback keeps the previous
state object; that object still reaches the same servo instances, so the
in-place mutations performed before the failure stay visible through it.
Returns the new justLeaned flag, whether the step succeeded, and the state
the orchestrator observes afterwards. -/
def inputCallback (vec : Joystick → ℚ × ℚ) (scale : ℚ → Servo → ℚ)
    (move stand : Context → Option Context) (j : Bool) (st : State) (inp : Input)
    (t : Option ℚ) : Bool × Bool × State :=
  match step vec scale move stand j (mkStepContext inp st t) with
  | (j2, some st2, _) => (j2, true, st2)
  | (j2, none, heap) => (j2, false, { st with servos := heap })

/-- One selection of the startup ramp loop, given the draw r of
Math.random(): index = floor(r * size), and the set iterator is advanced
once by next() and then once more for each i in the range [1, index), so
the element at position index - 1 (position 0 when index is 0 or 1) is
taken. -/
def pickServo (remaining : List ℕ) (r : ℚ) : ℕ :=
  let index := (⌊r * (remaining.length : ℚ)⌋).toNat
  remaining.getD (if index ≤ 1 then 0 else index - 1) 0

/-- The while loop of the startup ramp over one parity set: as long as
servos remain, pick one with the next random draw, activate it and remove
it from the remaining set.  The random draws come from the stream rs; fuel
bounds the iteration count and is instantiated with the set's size. -/
def rampSteps : (ℕ → ℚ) → ℕ → List ℕ → List ℕ
  | _, 0, _ => []
  | rs, fuel + 1, remaining =>
    if remaining.isEmpty then []
    else
      let chosen := pickServo remaining (rs 0)
      chosen :: rampSteps (fun n => rs (n + 1)) fuel (remaining.erase chosen)

/-- Modelled from the spec: the collection's even() is not among the
sources; per the spec it is the partition of the servos by index parity,
in collection order. -/
def evenServoIdx (st : State) : List ℕ :=
  (st.servos.filter fun s => s.index % 2 == 0).map Servo.index

/-- Modelled from the spec: the collection's odd(), the servos with odd
index in collection order. -/
def oddServoIdx (st : State) : List ℕ :=
  (st.servos.filter fun s => s.index % 2 == 1).map Servo.index

/-- The order in which the startup ramp activates the servo indices: the
even set is processed first, then the odd set, one activation per random
draw. -/
def rampActivations (st : State) (rs : ℕ → ℚ) : List ℕ :=
  rampSteps rs (evenServoIdx st).length (evenServoIdx st)
    ++ rampSteps (fun n => rs (n + (evenServoIdx st).length))
        (oddServoIdx st).length (oddServoIdx st)

/-- setStartupSettlerFilter run to completion with no cancellation: the
awaits only pace the loop, so the completed run is determined by the
random draw stream rs.  It returns the final state — the filter deleted on
completion — together with the activation order. -/
def setStartupSettlerFilter (st : State) (rs : ℕ → ℚ) : State × List ℕ :=
  ({ st with settleServoFilter := none }, rampActivations st rs)

/-- The servosActive set after k iterations of the ramp: the first k
activated indices (the set only ever receives add calls). -/
def rampActiveSet (st : State) (rs : ℕ → ℚ) (k : ℕ) : List ℕ :=
  (rampActivations st rs).take k

/-- The filter the ramp installs on the shared state, seen after k
iterations: servo => servosActive.has(servo.index). -/
def rampFilter (st : State) (rs : ℕ → ℚ) (k : ℕ) : Servo → Bool :=
  fun s => (rampActiveSet st rs k).contains s.index

/-- A servo fixture for concrete evaluations. -/
def mkServo (i : ℕ) (cur goal neutral : ℚ) : Servo :=
  { index := i, pid := { acc := 0, stepF := fun _ e => (e, 0) },
    position := { current := cur, goal := goal, neutral := neutral } }

/-- A scaling fixture: pass the axis value through unchanged. -/
def scaleAxis : ℚ → Servo → ℚ := fun v _ => v

/-- A scaling fixture whose output depends on the servo. -/
def scaleIdx : ℚ → Servo → ℚ := fun v s => v + s.index

/-- A vector-derivation fixture: pass the raw sample through. -/
def vecId : Joystick → ℚ × ℚ := fun j => (j.x, j.y)

/-- A stage fixture that always signals a ValidationFailure. -/
def moveNone : Context → Option Context := fun _ => none

/-- A stage fixture that passes the context through unchanged. -/
def standSome : Context → Option Context := fun c => some c

/-- An input with the lean button held. -/
def pressInput : Input :=
  { axes := { left := ⟨0, 0⟩, right := ⟨0, 0⟩ }, buttonsPressed := [4] }

/-- An input with no button pressed. -/
def idleInput : Input :=
  { axes := { left := ⟨0, 0⟩, right := ⟨0, 0⟩ }, buttonsPressed := [] }

/-- The spec's edge-trigger test sequence: pressed, pressed, released,
released. -/
def seqInputs : List Input := [pressInput, pressInput, idleInput, idleInput]

/-- A minimal state fixture with no servos. -/
def stEmpty : State :=
  { servos := [], legsLeft := [], legsRight := [], leaned := false,
    settleServoFilter := none }

/-- A four-servo rig with one leg pair per side. -/
def stLegs : State :=
  { servos := [mkServo 0 0 1 2, mkServo 1 0 1 2, mkServo 2 0 1 2, mkServo 3 0 1 2],
    legsLeft := [(0, 1)], legsRight := [(2, 3)], leaned := false,
    settleServoFilter := none }

/-- A context fixture leaning with right stick at (1/2, -1/4). -/
def ctxStick : Context :=
  { input := { axes := { left := ⟨0, 0⟩, right := ⟨1/2, -1/4⟩ },
               buttonsPressed := [4] },
    state := stLegs, timeSinceLastInput := none, timeSinceLastTick := none }

/-- A filter fixture admitting only servo index 0. -/
def filterIdx0 : Servo → Bool := fun s => s.index == 0

/-- A two-servo state with the index-0 filter installed. -/
def stFiltered : State :=
  { servos := [mkServo 0 0 6 0, mkServo 1 1 9 0], legsLeft := [], legsRight := [],
    leaned := false, settleServoFilter := some filterIdx0 }

/-- A tick context over the filtered state. -/
def ctxFiltered : Context :=
  { input := default, state := stFiltered, timeSinceLastInput := none,
    timeSinceLastTick := none }

/-- A three-servo state for the ramp fixtures. -/
def stRamp : State :=
  { servos := [mkServo 0 0 0 0, mkServo 1 0 0 0, mkServo 2 0 0 0],
    legsLeft := [], legsRight := [], leaned := false, settleServoFilter := none }

/-- A constant random-draw stream. -/
def rsZero : ℕ → ℚ := fun _ => 0

/-- A servo with a purely proportional controller of gain 1, sitting at
0 with goal 8. -/
def servoProp : Servo :=
  { index := 0, pid := { acc := 0, stepF := proportionalStepF 1 },
    position := { current := 0, goal := 8, neutral := 0 } }

/-- A tick context over the single proportional servo, no filter. -/
def ctxProp : Context :=
  { input := default,
    state := { servos := [servoProp], legsLeft := [], legsRight := [],
               leaned := false, settleServoFilter := none },
    timeSinceLastInput := none, timeSinceLastTick := none }

/-- A two-servo leg state for the pipeline fixtures: goals start at the
neutral values. -/
def stPipe : State :=
  { servos := [mkServo 0 0 5 5, mkServo 1 0 7 7], legsLeft := [(0, 1)],
    legsRight := [], leaned := false, settleServoFilter := none }

/-- An input fixture: lean button held, right stick at (1, 0). -/
def inpPipe : Input :=
  { axes := { left := ⟨0, 0⟩, right := ⟨1, 0⟩ }, buttonsPressed := [4] }

theorem settleServosList_eq (filt : Option (Servo → Bool)) (l : List Servo) :
    settleServosList filt l
      = (l.map fun s => if admits filt s then (settleOne s).1 else s,
         (l.filter fun s => admits filt s).map fun s => (settleOne s).2) := by
  induction l with
  | nil => rfl
  | cons s rest ih =>
    simp only [settleServosList, ih, List.map_cons, List.filter_cons]
    cases h : admits filt s <;> simp [h]

theorem settleServos_servos (c : Context) :
    ((settleServos c).1).state.servos
      = c.state.servos.map
          fun s => if admits c.state.settleServoFilter s then (settleOne s).1 else s := by
  simp [settleServos, settleServosList_eq]

theorem settleServos_writes (c : Context) :
    (settleServos c).2
      = (c.state.servos.filter fun s => admits c.state.settleServoFilter s).map
          fun s => (settleOne s).2 := by
  simp [settleServos, settleServosList_eq]

/-- Claim C1: one settler pass visits the servos in the collection's all()
order; for every admitted servo (every servo when the filter is unset) it
computes error = goal - current, advances current by exactly the delta of
pid.step(error), updates the PID state, and writes the updated current to
the hardware at that servo's index on channel 0; the write log lists
exactly the admitted servos in collection order. -/
theorem c1_settler_pass (c : Context) :
    ((settleServos c).1).state.servos
      = c.state.servos.map
          (fun s =>
            if admits c.state.settleServoFilter s then
              { s with
                  pid := { s.pid with
                    acc := (s.pid.stepF s.pid.acc
                      (s.position.goal - s.position.current)).2 },
                  position := { s.position with
                    current := s.position.current
                      + (s.pid.stepF s.pid.acc
                          (s.position.goal - s.position.current)).1 } }
            else s)
  ∧ (settleServos c).2
      = (c.state.servos.filter fun s => admits c.state.settleServoFilter s).map
          (fun s => (s.index, 0,
            s.position.current
              + (s.pid.stepF s.pid.acc (s.position.goal - s.position.current)).1)) := by
  refine ⟨?_, ?_⟩
  · rw [settleServos_servos]
    apply List.map_congr_left
    intro s _
    cases h : admits c.state.settleServoFilter s <;> simp [h, settleOne, Pid.step]
  · rw [settleServos_writes]
    apply List.map_congr_left
    intro s _
    simp [settleOne, Pid.step]

/-- Claim C9: a settler pass only mutates position.current and the PID
state of the servos: every servo keeps its index, goal and neutral, the
state keeps leaned, the filter and the leg grouping, and the returned
context keeps the input and time fields of the context it received. -/
theorem c9_settler_frame (c : Context) :
    ((settleServos c).1).input = c.input
  ∧ ((settleServos c).1).timeSinceLastInput = c.timeSinceLastInput
  ∧ ((settleServos c).1).timeSinceLastTick = c.timeSinceLastTick
  ∧ ((settleServos c).1).state.leaned = c.state.leaned
  ∧ ((settleServos c).1).state.settleServoFilter = c.state.settleServoFilter
  ∧ ((settleServos c).1).state.legsLeft = c.state.legsLeft
  ∧ ((settleServos c).1).state.legsRight = c.state.legsRight
  ∧ ((settleServos c).1).state.servos.map
        (fun s => (s.index, s.position.goal, s.position.neutral))
      = c.state.servos.map
          (fun s => (s.index, s.position.goal, s.position.neutral)) := by
  refine ⟨rfl, rfl, rfl, rfl, rfl, rfl, rfl, ?_⟩
  rw [settleServos_servos, List.map_map]
  apply List.map_congr_left
  intro s _
  cases h : admits c.state.settleServoFilter s <;> simp [h, settleOne, Pid.step]

/-- Claim C4: with a filter installed, a servo the filter rejects is left
exactly unchanged by the pass (position and PID state included) and no
hardware write carries its index. -/
theorem c4_filter_exclusivity (c : Context) (f : Servo → Bool) (i : ℕ)
    (hf : c.state.settleServoFilter = some f)
    (hi : i < c.state.servos.length)
    (hskip : f (c.state.servos.getD i default) = false)
    (hnd : (c.state.servos.map Servo.index).Nodup) :
    ((settleServos c).1).state.servos.getD i default = c.state.servos.getD i default
  ∧ ∀ w ∈ (settleServos c).2, w.1 ≠ (c.state.servos.getD i default).index := by
  have hg : c.state.servos.getD i default = c.state.servos[i] :=
    List.getD_eq_getElem _ _ hi
  have hadm : admits c.state.settleServoFilter c.state.servos[i] = false := by
    rw [hf]
    rw [hg] at hskip
    simpa [admits] using hskip
  constructor
  · rw [settleServos_servos, hg,
      List.getD_eq_getElem _ _ (by simpa using hi), List.getElem_map]
    rw [if_neg (by simp [hadm])]
  · intro w hw heq
    rw [settleServos_writes] at hw
    obtain ⟨t, ht, hwt⟩ := List.mem_map.mp hw
    obtain ⟨htmem, hadmt⟩ := List.mem_filter.mp ht
    have htidx : w.1 = t.index := by rw [← hwt]; rfl
    have hsmem : c.state.servos.getD i default ∈ c.state.servos := by
      rw [hg]; exact List.getElem_mem hi
    have hti : t = c.state.servos.getD i default := by
      apply List.inj_on_of_nodup_map hnd htmem hsmem
      rw [← htidx, heq]
    rw [hti, hg, hadm] at hadmt
    exact absurd hadmt (by simp)

theorem c4_witness :
    ((settleServos ctxFiltered).1).state.servos.getD 1 default
      = ctxFiltered.state.servos.getD 1 default :=
  (c4_filter_exclusivity ctxFiltered filterIdx0 1 rfl (by decide) (by decide)
    (by decide)).1

theorem settleStep_goal (s : Servo) : (settleStep s).position.goal = s.position.goal := rfl

theorem settleStep_neutral (s : Servo) :
    (settleStep s).position.neutral = s.position.neutral := rfl

theorem settleStep_stepF (s : Servo) : (settleStep s).pid.stepF = s.pid.stepF := rfl

/-- One settle visit of a servo with a purely proportional controller of
gain k in (0, 1] does not increase the distance between goal and
current. -/
theorem settleStep_contracts (k : ℚ) (s : Servo) (hk0 : 0 < k) (hk1 : k ≤ 1)
    (hs : s.pid.stepF = proportionalStepF k) :
    |(settleStep s).position.goal - (settleStep s).position.current|
      ≤ |s.position.goal - s.position.current| := by
  have hcur : (settleStep s).position.current
      = s.position.current + k * (s.position.goal - s.position.current) := by
    simp [settleStep, settleOne, Pid.step, hs, proportionalStepF]
  rw [settleStep_goal, hcur]
  have hfac : s.position.goal
        - (s.position.current + k * (s.position.goal - s.position.current))
      = (1 - k) * (s.position.goal - s.position.current) := by ring
  rw [hfac, abs_mul]
  have h1 : |1 - k| ≤ 1 := by
    rw [abs_of_nonneg (by linarith)]
    linarith
  calc |1 - k| * |s.position.goal - s.position.current|
      ≤ 1 * |s.position.goal - s.position.current| :=
        mul_le_mul_of_nonneg_right h1 (abs_nonneg _)
    _ = |s.position.goal - s.position.current| := one_mul _

theorem settleStep_iterate_stepF (s : Servo) (n : ℕ) :
    (settleStep^[n] s).pid.stepF = s.pid.stepF := by
  induction n with
  | zero => rfl
  | succ n ih => rw [Function.iterate_succ_apply', settleStep_stepF, ih]

/-- With no filter installed, one tick maps every servo through
settleStep and keeps the filter absent. -/
theorem tickOnce_of_none (c : Context) (h : c.state.settleServoFilter = none) :
    (tickOnce c).state.servos = c.state.servos.map settleStep
  ∧ (tickOnce c).state.settleServoFilter = none := by
  constructor
  · show ((settleServos c).1).state.servos = _
    rw [settleServos_servos, h]
    apply List.map_congr_left
    intro s _
    simp [admits, settleStep]
  · show ((settleServos c).1).state.settleServoFilter = none
    rw [← h]; rfl

theorem tickOnce_iterate (c : Context) (h : c.state.settleServoFilter = none) (n : ℕ) :
    (tickOnce^[n] c).state.servos = c.state.servos.map (settleStep^[n])
  ∧ (tickOnce^[n] c).state.settleServoFilter = none := by
  induction n with
  | zero => exact ⟨by simp, h⟩
  | succ n ih =>
    rw [Function.iterate_succ_apply']
    obtain ⟨h1, h2⟩ := ih
    obtain ⟨h3, h4⟩ := tickOnce_of_none _ h2
    refine ⟨?_, h4⟩
    rw [h3, h1, List.map_map]
    apply List.map_congr_left
    intro s _
    exact (Function.iterate_succ_apply' settleStep n s).symm

/-- Claim C6: with the filter unset and every servo driven by a purely
proportional PID of gain k in (0, 1], the distance between goal and
current of any servo never increases from one settler tick to the next,
over every sequence of successive ticks. -/
theorem c6_monotone_convergence (k : ℚ) (c : Context) (i n : ℕ)
    (hk0 : 0 < k) (hk1 : k ≤ 1)
    (hfilt : c.state.settleServoFilter = none)
    (hall : ∀ s ∈ c.state.servos, s.pid.stepF = proportionalStepF k)
    (hi : i < c.state.servos.length) :
    |((tickOnce^[n + 1] c).state.servos.getD i default).position.goal
      - ((tickOnce^[n + 1] c).state.servos.getD i default).position.current|
  ≤ |((tickOnce^[n] c).state.servos.getD i default).position.goal
      - ((tickOnce^[n] c).state.servos.getD i default).position.current| := by
  rw [(tickOnce_iterate c hfilt (n + 1)).1, (tickOnce_iterate c hfilt n).1,
    List.getD_eq_getElem _ _ (by simpa using hi),
    List.getD_eq_getElem _ _ (by simpa using hi),
    List.getElem_map, List.getElem_map, Function.iterate_succ_apply']
  apply settleStep_contracts k _ hk0 hk1
  rw [settleStep_iterate_stepF]
  exact hall _ (List.getElem_mem hi)

theorem c6_witness :
    |((tickOnce^[1] ctxProp).state.servos.getD 0 default).position.goal
      - ((tickOnce^[1] ctxProp).state.servos.getD 0 default).position.current|
  ≤ |((tickOnce^[0] ctxProp).state.servos.getD 0 default).position.goal
      - ((tickOnce^[0] ctxProp).state.servos.getD 0 default).position.current| :=
  c6_monotone_convergence 1 ctxProp 0 0 (by decide) (by decide) rfl
    (by intro s hs
        rw [List.mem_singleton.mp hs]
        rfl)
    (by decide)

/-- The new value of the justLeaned flag after a lean call is the pressed
level of that call. -/
theorem lean_flag (scale : ℚ → Servo → ℚ) (j : Bool) (c : Context) :
    (lean scale j c).1 = c.input.buttonsPressed.contains 4 := rfl

theorem mkStepContext_input (inp : Input) (st : State) (t : Option ℚ) :
    (mkStepContext inp st t).input = inp := rfl

/-- The branch taken by the t-th call of a lean sequence is determined by
the flag carried into it — the pressed level of the previous call — and
the current pressed level. -/
theorem leanRun_action (scale : ℚ → Servo → ℚ) (inps : List Input) :
    ∀ (j : Bool) (st : State) (t : ℕ), t < inps.length →
      (leanRun scale j st inps).1.getD t default
        = leanAction (if t = 0 then j else pressedAt inps (t - 1)) (pressedAt inps t) := by
  induction inps with
  | nil =>
    intro j st t ht
    simp at ht
  | cons inp rest ih =>
    intro j st t ht
    cases t with
    | zero =>
      simp [leanRun, pressedAt]
    | succ t =>
      have ht2 : t < rest.length := by simpa using ht
      have hq := ih (inp.buttonsPressed.contains 4)
        ((lean scale j (mkStepContext inp st none)).2).state t ht2
      simp only [leanRun, lean_flag, mkStepContext_input, List.getD_cons_succ]
      rw [hq]
      cases t with
      | zero => simp [pressedAt]
      | succ t2 => simp [pressedAt, List.getD_cons_succ]

/-- Claim C2: threading the persistent edge flag from its initial false
value through a sequence of lean calls, the neutral-reset branch runs at
call t exactly when the lean button is not pressed at t but was pressed at
t - 1: once per press-to-release edge, never while the button is held,
and never again on later released calls until the button has been pressed
again. -/
theorem c2_lean_edge_trigger (scale : ℚ → Servo → ℚ) (st : State) (inps : List Input)
    (t : ℕ) (ht : t < inps.length) :
    (leanRun scale false st inps).1.getD t default = LeanAction.resetGoals
      ↔ (pressedAt inps t = false ∧ 0 < t ∧ pressedAt inps (t - 1) = true) := by
  rw [leanRun_action scale inps false st t ht]
  cases t with
  | zero =>
    cases h : pressedAt inps 0 <;> simp [leanAction, h]
  | succ t2 =>
    have hne : ¬ (t2 + 1 = 0) := Nat.succ_ne_zero t2
    rw [if_neg hne]
    cases hq : pressedAt inps (t2 + 1) <;>
      cases hp : pressedAt inps (t2 + 1 - 1) <;>
        simp [leanAction, hq, hp]

theorem c2_witness :
    (leanRun scaleAxis false stEmpty seqInputs).1.getD 2 default
      = LeanAction.resetGoals :=
  (c2_lean_edge_trigger scaleAxis stEmpty seqInputs 2 (by decide)).mpr
    ⟨by decide, by decide, by decide⟩

/-- With a draw in [0, 1) the ramp selection lands inside the remaining
set. -/
theorem pickServo_mem (remaining : List ℕ) (r : ℚ)
    (hne : remaining ≠ []) (h0 : 0 ≤ r) (h1 : r < 1) :
    pickServo remaining r ∈ remaining := by
  have hlen : 0 < remaining.length := List.length_pos.mpr hne
  have hfl : ⌊r * (remaining.length : ℚ)⌋ < (remaining.length : ℤ) := by
    apply Int.floor_lt.mpr
    push_cast
    have hq : r * (remaining.length : ℚ) < 1 * (remaining.length : ℚ) :=
      mul_lt_mul_of_pos_right h1 (by exact_mod_cast hlen)
    simpa using hq
  have hge : 0 ≤ ⌊r * (remaining.length : ℚ)⌋ :=
    Int.floor_nonneg.mpr (mul_nonneg h0 (by positivity))
  rw [pickServo]
  have hidx : (⌊r * (remaining.length : ℚ)⌋).toNat < remaining.length := by omega
  have hpos : (if (⌊r * (remaining.length : ℚ)⌋).toNat ≤ 1 then 0
      else (⌊r * (remaining.length : ℚ)⌋).toNat - 1) < remaining.length := by
    split <;> omega
  rw [List.getD_eq_getElem _ _ hpos]
  exact List.getElem_mem hpos

/-- Run with exactly as much fuel as there are remaining servos and draws
in [0, 1), the ramp loop activates a permutation of the remaining set. -/
theorem rampSteps_perm : ∀ (fuel : ℕ) (rs : ℕ → ℚ) (remaining : List ℕ),
    (∀ n, 0 ≤ rs n ∧ rs n < 1) → fuel = remaining.length →
    List.Perm (rampSteps rs fuel remaining) remaining := by
  intro fuel
  induction fuel with
  | zero =>
    intro rs remaining hrs hlen
    have : remaining = [] := List.length_eq_zero.mp hlen.symm
    rw [this, rampSteps]
  | succ n ih =>
    intro rs remaining hrs hlen
    have hne : remaining ≠ [] := by
      intro h
      rw [h] at hlen
      simp at hlen
    have hmem := pickServo_mem remaining (rs 0) hne (hrs 0).1 (hrs 0).2
    rw [rampSteps, if_neg (by simp [List.isEmpty_iff, hne])]
    have herase : n = (remaining.erase (pickServo remaining (rs 0))).length := by
      rw [List.length_erase_of_mem hmem]
      omega
    have hrec := ih (fun m => rs (m + 1)) (remaining.erase (pickServo remaining (rs 0)))
      (fun m => hrs (m + 1)) herase
    exact (hrec.cons _).trans (List.perm_cons_erase hmem).symm

/-- The even-then-odd parity partition covers the collection exactly. -/
theorem evenOdd_perm (l : List Servo) :
    List.Perm ((l.filter fun s => s.index % 2 == 0) ++ (l.filter fun s => s.index % 2 == 1)) l := by
  have hperm := List.filter_append_perm (fun s : Servo => s.index % 2 == 0) l
  have hodd : (l.filter fun s : Servo => !(s.index % 2 == 0))
      = l.filter fun s => s.index % 2 == 1 := by
    apply List.filter_congr
    intro s _
    rcases Nat.mod_two_eq_zero_or_one s.index with h | h <;> simp [h]
  rw [← hodd]
  exact hperm

/-- The full activation order is a permutation of the collection's
indices. -/
theorem rampActivations_perm (st : State) (rs : ℕ → ℚ)
    (hrs : ∀ n, 0 ≤ rs n ∧ rs n < 1) :
    List.Perm (rampActivations st rs) (st.servos.map Servo.index) := by
  have h1 := rampSteps_perm (evenServoIdx st).length rs (evenServoIdx st) hrs rfl
  have h2 := rampSteps_perm (oddServoIdx st).length
    (fun n => rs (n + (evenServoIdx st).length)) (oddServoIdx st)
    (fun n => hrs (n + (evenServoIdx st).length)) rfl
  have h3 : List.Perm (rampActivations st rs) (evenServoIdx st ++ oddServoIdx st) :=
    h1.append h2
  apply h3.trans
  rw [evenServoIdx, oddServoIdx, ← List.map_append]
  exact (evenOdd_perm st.servos).map Servo.index

/-- Claim C5: when the startup ramp runs to completion, every servo index
of the collection has been added to the active set exactly once (given the
collection's indices are distinct, as the data model requires), the
settleServoFilter is absent afterwards, and with it absent the settler
admits every servo. -/
theorem c5_startup_ramp_coverage (st : State) (rs : ℕ → ℚ)
    (hrs : ∀ n, 0 ≤ rs n ∧ rs n < 1)
    (hnd : (st.servos.map Servo.index).Nodup) :
    (∀ i ∈ st.servos.map Servo.index, ((setStartupSettlerFilter st rs).2).count i = 1)
  ∧ ((setStartupSettlerFilter st rs).1).settleServoFilter = none
  ∧ ∀ s : Servo, admits ((setStartupSettlerFilter st rs).1).settleServoFilter s = true := by
  refine ⟨?_, rfl, fun s => rfl⟩
  intro i hi
  have hperm := rampActivations_perm st rs hrs
  show (rampActivations st rs).count i = 1
  rw [hperm.count_eq]
  exact List.count_eq_one_of_mem hnd hi

theorem c5_witness :
    ((setStartupSettlerFilter stRamp rsZero).2).count 1 = 1
  ∧ ((setStartupSettlerFilter stRamp rsZero).1).settleServoFilter = none :=
  ⟨(c5_startup_ramp_coverage stRamp rsZero
      (fun _ => ⟨le_refl 0, zero_lt_one⟩) (by decide)).1 1 (by decide),
   (c5_startup_ramp_coverage stRamp rsZero
      (fun _ => ⟨le_refl 0, zero_lt_one⟩) (by decide)).2.1⟩

/-- Claim C8 fails on the code: whatever draw r in [0, 1) Math.random
produces, with two servos remaining the loop always selects the first one
— the iterator is advanced once before the advancing loop starts, which
then runs only index - 1 times — so the second remaining servo has
selection measure 0, not the uniform 1/2 the spec requires. -/
theorem c8_pick_not_uniform (r : ℚ) (h0 : 0 ≤ r) (h1 : r < 1) :
    pickServo [10, 11] r = 10 := by
  have hfl : ⌊r * ((2 : ℕ) : ℚ)⌋ < (2 : ℤ) := by
    apply Int.floor_lt.mpr
    push_cast
    linarith
  have hge : 0 ≤ ⌊r * ((2 : ℕ) : ℚ)⌋ :=
    Int.floor_nonneg.mpr (mul_nonneg h0 (by positivity))
  rw [pickServo]
  have hle : (⌊r * (([10, 11] : List ℕ).length : ℚ)⌋).toNat ≤ 1 := by
    have : (([10, 11] : List ℕ).length : ℚ) = ((2 : ℕ) : ℚ) := by norm_num
    rw [this]
    omega
  rw [if_pos hle]
  rfl

theorem c8_witness : pickServo [10, 11] 0 = 10 :=
  c8_pick_not_uniform 0 (by decide) (by decide)

/-- Claim C10: while the ramp runs, the active set only gains indices, so
a servo the installed filter admits after k1 iterations is still admitted
after any later iteration count k2. -/
theorem c10_ramp_filter_monotone (st : State) (rs : ℕ → ℚ) (k1 k2 : ℕ) (s : Servo)
    (hk : k1 ≤ k2) (hs : rampFilter st rs k1 s = true) :
    rampFilter st rs k2 s = true := by
  have hmem : s.index ∈ rampActiveSet st rs k1 := by
    simpa [rampFilter] using hs
  have hsub : s.index ∈ rampActiveSet st rs k2 := by
    rw [rampActiveSet] at hmem ⊢
    have htake : (rampActivations st rs).take k1
        = ((rampActivations st rs).take k2).take k1 := by
      rw [List.take_take, min_eq_left hk]
    rw [htake] at hmem
    exact List.take_subset _ _ hmem
  simpa [rampFilter] using hsub

/-- With draw 0 the ramp always selects the first remaining servo. -/
theorem pickServo_zero (l : List ℕ) : pickServo l 0 = l.getD 0 0 := by
  simp [pickServo]

theorem c10_witness : rampFilter stRamp rsZero 3 (mkServo 0 0 0 0) = true :=
  c10_ramp_filter_monotone stRamp rsZero 1 3 (mkServo 0 0 0 0) (by omega)
    (by simp [rampFilter, rampActiveSet, rampActivations, rampSteps,
          pickServo_zero, rsZero, evenServoIdx, oddServoIdx, stRamp, mkServo])

/-- Searching the collection commutes with an index-preserving rewrite of
every servo. -/
theorem getServo_map_indexPreserving (f : Servo → Servo)
    (hf : ∀ s, (f s).index = s.index) (servos : List Servo) (i : ℕ) :
    getServo (servos.map f) i = (getServo servos i).map f := by
  induction servos with
  | nil => rfl
  | cons s rest ih =>
    show ((s :: rest).map f).find? (fun t => t.index == i)
      = (((s :: rest).find? fun t => t.index == i).map f)
    rw [List.map_cons, List.find?_cons, List.find?_cons, hf s]
    cases h : (s.index == i) with
    | true => rfl
    | false => exact ih

theorem goalSetIf_index (j : ℕ) (g : ℚ) (s : Servo) :
    (if s.index = j then goalSet s g else s).index = s.index := by
  split <;> rfl

theorem getServo_setServoGoal_ne (servos : List Servo) (i j : ℕ) (g : ℚ)
    (hij : i ≠ j) :
    getServo (setServoGoal servos j g) i = getServo servos i := by
  rw [setServoGoal, getServo_map_indexPreserving _ (goalSetIf_index j g)]
  cases hs : getServo servos i with
  | none => rfl
  | some t =>
    have hs2 : servos.find? (fun s => s.index == i) = some t := hs
    have hti : t.index = i := by simpa using List.find?_some hs2
    simp [hti, hij]

theorem getServo_setServoGoal_eq (servos : List Servo) (i : ℕ) (g : ℚ) :
    getServo (setServoGoal servos i g) i
      = (getServo servos i).map fun t => goalSet t g := by
  rw [setServoGoal, getServo_map_indexPreserving _ (goalSetIf_index i g)]
  cases hs : getServo servos i with
  | none => rfl
  | some t =>
    have hs2 : servos.find? (fun s => s.index == i) = some t := hs
    have hti : t.index = i := by simpa using List.find?_some hs2
    simp [hti]

theorem applyGoalWrite_frame (scale : ℚ → Servo → ℚ) (a : ℚ)
    (servos : List Servo) (j i : ℕ) (hij : i ≠ j) :
    getServo (applyGoalWrite scale a servos j) i = getServo servos i := by
  unfold applyGoalWrite
  cases hE : getServo servos j with
  | none => rfl
  | some e => exact getServo_setServoGoal_ne _ _ _ _ hij

theorem applyGoalWrite_hit (scale : ℚ → Servo → ℚ) (a : ℚ)
    (servos : List Servo) (i : ℕ) (e : Servo)
    (he : getServo servos i = some e) :
    getServo (applyGoalWrite scale a servos i) i = some (goalSet e (scale a e)) := by
  unfold applyGoalWrite
  rw [he, getServo_setServoGoal_eq, he]
  rfl

theorem applyLeanPair_frame (scale : ℚ → Servo → ℚ) (ea sa : ℚ)
    (servos : List Servo) (p : ℕ × ℕ) (i : ℕ) (h1 : i ≠ p.1) (h2 : i ≠ p.2) :
    getServo (applyLeanPair scale ea sa servos p) i = getServo servos i := by
  unfold applyLeanPair
  rw [applyGoalWrite_frame _ _ _ _ _ h2, applyGoalWrite_frame _ _ _ _ _ h1]

theorem applyLeanPair_elbow (scale : ℚ → Servo → ℚ) (ea sa : ℚ)
    (servos : List Servo) (p : ℕ × ℕ) (e : Servo)
    (hp : p.1 ≠ p.2) (he : getServo servos p.1 = some e) :
    getServo (applyLeanPair scale ea sa servos p) p.1
      = some (goalSet e (scale ea e)) := by
  unfold applyLeanPair
  rw [applyGoalWrite_frame _ _ _ _ _ hp, applyGoalWrite_hit _ _ _ _ _ he]

theorem applyLeanPair_shoulder (scale : ℚ → Servo → ℚ) (ea sa : ℚ)
    (servos : List Servo) (p : ℕ × ℕ) (sh : Servo)
    (hp : p.1 ≠ p.2) (hsh : getServo servos p.2 = some sh) :
    getServo (applyLeanPair scale ea sa servos p) p.2
      = some (goalSet sh (scale sa sh)) := by
  unfold applyLeanPair
  have hmid : getServo (applyGoalWrite scale ea servos p.1) p.2 = some sh := by
    rw [applyGoalWrite_frame _ _ _ _ _ (Ne.symm hp)]
    exact hsh
  exact applyGoalWrite_hit _ _ _ _ _ hmid

theorem foldl_applyLeanPair_frame (scale : ℚ → Servo → ℚ) (ea sa : ℚ) :
    ∀ (pairs : List (ℕ × ℕ)) (servos : List Servo) (i : ℕ),
    (∀ q ∈ pairs, i ≠ q.1 ∧ i ≠ q.2) →
    getServo (pairs.foldl (applyLeanPair scale ea sa) servos) i
      = getServo servos i := by
  intro pairs
  induction pairs with
  | nil => intro servos i _; rfl
  | cons q rest ih =>
    intro servos i h
    rw [List.foldl_cons,
      ih _ _ (fun q2 hq2 => h q2 (List.mem_cons_of_mem _ hq2)),
      applyLeanPair_frame _ _ _ _ _ _ (h q (List.mem_cons_self _ _)).1
        (h q (List.mem_cons_self _ _)).2]

/-- A pair's components sit inside the flattened index list of any pair
list holding it. -/
theorem mem_flatMapPairs (pairs : List (ℕ × ℕ)) (p : ℕ × ℕ) (hp : p ∈ pairs) :
    p.1 ∈ (pairs.flatMap fun q => [q.1, q.2])
  ∧ p.2 ∈ (pairs.flatMap fun q => [q.1, q.2]) :=
  ⟨List.mem_flatMap.mpr ⟨p, hp, by simp⟩, List.mem_flatMap.mpr ⟨p, hp, by simp⟩⟩

/-- After folding one side's loop over servos, a pair of that side whose
indices are distinct within the side carries exactly the scaled elbow and
shoulder goals. -/
theorem foldl_applyLeanPair_hit (scale : ℚ → Servo → ℚ) (ea sa : ℚ) :
    ∀ (pairs : List (ℕ × ℕ)) (servos : List Servo) (p : ℕ × ℕ),
    p ∈ pairs → (pairs.flatMap fun q => [q.1, q.2]).Nodup →
    (∀ e, getServo servos p.1 = some e →
      getServo (pairs.foldl (applyLeanPair scale ea sa) servos) p.1
        = some (goalSet e (scale ea e)))
  ∧ (∀ sh, getServo servos p.2 = some sh →
      getServo (pairs.foldl (applyLeanPair scale ea sa) servos) p.2
        = some (goalSet sh (scale sa sh))) := by
  intro pairs
  induction pairs with
  | nil => intro servos p hp _; exact absurd hp (List.not_mem_nil _)
  | cons q rest ih =>
    intro servos p hp hnd
    have hnd2 : (q.1 :: q.2 :: rest.flatMap fun r => [r.1, r.2]).Nodup := by
      simpa [List.flatMap_cons] using hnd
    have hq1 := List.nodup_cons.mp hnd2
    have hq2 := List.nodup_cons.mp hq1.2
    have h12 : q.1 ≠ q.2 := fun he => hq1.1 (by simp [he])
    have h1L : q.1 ∉ (rest.flatMap fun r => [r.1, r.2]) :=
      fun hm => hq1.1 (List.mem_cons_of_mem _ hm)
    have h2L : q.2 ∉ (rest.flatMap fun r => [r.1, r.2]) := hq2.1
    have hLnd : (rest.flatMap fun r => [r.1, r.2]).Nodup := hq2.2
    rw [List.foldl_cons]
    rcases List.mem_cons.mp hp with rfl | hp2
    · constructor
      · intro e he
        rw [foldl_applyLeanPair_frame scale ea sa rest _ p.1
            (fun r hr => ⟨fun heq => h1L (by
                rw [heq]; exact (mem_flatMapPairs rest r hr).1),
              fun heq => h1L (by
                rw [heq]; exact (mem_flatMapPairs rest r hr).2)⟩)]
        exact applyLeanPair_elbow _ _ _ _ _ _ h12 he
      · intro sh hsh
        rw [foldl_applyLeanPair_frame scale ea sa rest _ p.2
            (fun r hr => ⟨fun heq => h2L (by
                rw [heq]; exact (mem_flatMapPairs rest r hr).1),
              fun heq => h2L (by
                rw [heq]; exact (mem_flatMapPairs rest r hr).2)⟩)]
        exact applyLeanPair_shoulder _ _ _ _ _ _ h12 hsh
    · have hpmem := mem_flatMapPairs rest p hp2
      have hne1 : p.1 ≠ q.1 := fun heq => h1L (by rw [← heq]; exact hpmem.1)
      have hne2 : p.1 ≠ q.2 := fun heq => h2L (by rw [← heq]; exact hpmem.1)
      have hne3 : p.2 ≠ q.1 := fun heq => h1L (by rw [← heq]; exact hpmem.2)
      have hne4 : p.2 ≠ q.2 := fun heq => h2L (by rw [← heq]; exact hpmem.2)
      have ihr := ih (applyLeanPair scale ea sa servos q) p hp2 hLnd
      constructor
      · intro e he
        apply ihr.1
        rw [applyLeanPair_frame _ _ _ _ _ _ hne1 hne2]
        exact he
      · intro sh hsh
        apply ihr.2
        rw [applyLeanPair_frame _ _ _ _ _ _ hne3 hne4]
        exact hsh

/-- With the lean button pressed, lean writes the two leg loops over the
shared servos. -/
theorem lean_servos_of_pressed (scale : ℚ → Servo → ℚ) (j : Bool) (c : Context)
    (hpress : c.input.buttonsPressed.contains 4 = true) :
    ((lean scale j c).2).state.servos
      = c.state.legsRight.foldl
          (applyLeanPair scale (-(c.input.axes.right.x)) (-(c.input.axes.right.y)))
          (c.state.legsLeft.foldl
            (applyLeanPair scale (-(c.input.axes.right.x)) (c.input.axes.right.y))
            c.state.servos) := by
  have hmem : 4 ∈ c.input.buttonsPressed := by simpa using hpress
  simp [lean, leanAction, hmem, leanApply, leanGoalsSet]

/-- Claim C3: on a lean call with the button pressed and normalized
right-stick values (x, y), every left-leg pair receives elbow goal
scale(-x, elbow) and shoulder goal scale(y, shoulder), and every
right-leg pair receives elbow goal scale(-x, elbow) and shoulder goal
scale(-y, shoulder): the elbows of both sides get the same scale(-x, _)
assignment and the shoulders differ only in the sign of y.  The leg
indices are assumed pairwise distinct, as the leg grouping of a physical
rig is. -/
theorem c3_lean_mirrored (scale : ℚ → Servo → ℚ) (j : Bool) (c : Context)
    (hpress : c.input.buttonsPressed.contains 4 = true)
    (hnd : (leanLegIndices c.state).Nodup) :
    (∀ p ∈ c.state.legsLeft, ∀ e, getServo c.state.servos p.1 = some e →
        getServo ((lean scale j c).2).state.servos p.1
          = some (goalSet e (scale (-(c.input.axes.right.x)) e)))
  ∧ (∀ p ∈ c.state.legsLeft, ∀ sh, getServo c.state.servos p.2 = some sh →
        getServo ((lean scale j c).2).state.servos p.2
          = some (goalSet sh (scale (c.input.axes.right.y) sh)))
  ∧ (∀ p ∈ c.state.legsRight, ∀ e, getServo c.state.servos p.1 = some e →
        getServo ((lean scale j c).2).state.servos p.1
          = some (goalSet e (scale (-(c.input.axes.right.x)) e)))
  ∧ (∀ p ∈ c.state.legsRight, ∀ sh, getServo c.state.servos p.2 = some sh →
        getServo ((lean scale j c).2).state.servos p.2
          = some (goalSet sh (scale (-(c.input.axes.right.y)) sh))) := by
  have hservos := lean_servos_of_pressed scale j c hpress
  have hnd0 : (((c.state.legsLeft ++ c.state.legsRight).flatMap
      fun q => [q.1, q.2])).Nodup := hnd
  rw [List.flatMap_append] at hnd0
  obtain ⟨hndL, hndR, hdisj⟩ := List.nodup_append.mp hnd0
  refine ⟨?_, ?_, ?_, ?_⟩
  · intro p hp e he
    rw [hservos]
    have hpl := (mem_flatMapPairs c.state.legsLeft p hp).1
    rw [foldl_applyLeanPair_frame _ _ _ _ _ _
      (fun r hr => ⟨fun heq => hdisj hpl (by
          rw [heq]; exact (mem_flatMapPairs _ r hr).1),
        fun heq => hdisj hpl (by
          rw [heq]; exact (mem_flatMapPairs _ r hr).2)⟩)]
    exact (foldl_applyLeanPair_hit _ _ _ c.state.legsLeft c.state.servos p
      hp hndL).1 e he
  · intro p hp sh hsh
    rw [hservos]
    have hpl := (mem_flatMapPairs c.state.legsLeft p hp).2
    rw [foldl_applyLeanPair_frame _ _ _ _ _ _
      (fun r hr => ⟨fun heq => hdisj hpl (by
          rw [heq]; exact (mem_flatMapPairs _ r hr).1),
        fun heq => hdisj hpl (by
          rw [heq]; exact (mem_flatMapPairs _ r hr).2)⟩)]
    exact (foldl_applyLeanPair_hit _ _ _ c.state.legsLeft c.state.servos p
      hp hndL).2 sh hsh
  · intro p hp e he
    rw [hservos]
    have hpr := (mem_flatMapPairs c.state.legsRight p hp).1
    have hinner : getServo
        (c.state.legsLeft.foldl
          (applyLeanPair scale (-(c.input.axes.right.x)) (c.input.axes.right.y))
          c.state.servos) p.1
        = getServo c.state.servos p.1 :=
      foldl_applyLeanPair_frame _ _ _ _ _ _
        (fun q hq => ⟨fun heq => hdisj (by
            rw [heq]; exact (mem_flatMapPairs _ q hq).1) hpr,
          fun heq => hdisj (by
            rw [heq]; exact (mem_flatMapPairs _ q hq).2) hpr⟩)
    exact (foldl_applyLeanPair_hit _ _ _ c.state.legsRight _ p hp hndR).1 e
      (by rw [hinner]; exact he)
  · intro p hp sh hsh
    rw [hservos]
    have hpr := (mem_flatMapPairs c.state.legsRight p hp).2
    have hinner : getServo
        (c.state.legsLeft.foldl
          (applyLeanPair scale (-(c.input.axes.right.x)) (c.input.axes.right.y))
          c.state.servos) p.2
        = getServo c.state.servos p.2 :=
      foldl_applyLeanPair_frame _ _ _ _ _ _
        (fun q hq => ⟨fun heq => hdisj (by
            rw [heq]; exact (mem_flatMapPairs _ q hq).1) hpr,
          fun heq => hdisj (by
            rw [heq]; exact (mem_flatMapPairs _ q hq).2) hpr⟩)
    exact (foldl_applyLeanPair_hit _ _ _ c.state.legsRight _ p hp hndR).2 sh
      (by rw [hinner]; exact hsh)

theorem c3_witness :
    getServo ((lean scaleIdx false ctxStick).2).state.servos 0
      = some (goalSet (mkServo 0 0 1 2)
          (scaleIdx (-(ctxStick.input.axes.right.x)) (mkServo 0 0 1 2))) :=
  (c3_lean_mirrored scaleIdx false ctxStick (by decide) (by decide)).1
    (0, 1) (by decide) (mkServo 0 0 1 2) rfl

/-- Claim C7 counterexample: lean button pressed with right stick at
(1, 0); the lean stage runs, then the move stage signals a
ValidationFailure.  The step is indeed aborted, but the state the
orchestrator retains does not equal the state before the run: servo 0's
goal was 5 before the run yet reads the leaned value -1 afterwards,
because the goal was mutated in place by the completed lean stage and no
rollback exists. -/
theorem c7_counterexample :
    (inputCallback vecId scaleAxis moveNone standSome false stPipe inpPipe none).2.1
      = false
  ∧ (getServo
        ((inputCallback vecId scaleAxis moveNone standSome false stPipe inpPipe
            none).2.2).servos 0).map (fun s => s.position.goal)
      = some (-1)
  ∧ (getServo stPipe.servos 0).map (fun s => s.position.goal) = some 5 := by
  refine ⟨rfl, ?_, rfl⟩
  rfl

/-- Claim C7 amended: when a pipeline stage returns an absent result, the
step is aborted with the failure raised and the previous state object is
retained — leaned, settleServoFilter and the leg grouping keep the values
they had before the run — but the retained object reaches the same servo
instances, so the servo collection reflects every in-place goal mutation
the stages that completed before the failure performed; only the stages
after the failing one are skipped. -/
theorem c7_failure_keeps_prior_mutations (vec : Joystick → ℚ × ℚ)
    (scale : ℚ → Servo → ℚ) (move stand : Context → Option Context)
    (j : Bool) (st : State) (inp : Input) (t : Option ℚ)
    (hfail : (step vec scale move stand j (mkStepContext inp st t)).2.1 = none) :
    (inputCallback vec scale move stand j st inp t).2.1 = false
  ∧ (inputCallback vec scale move stand j st inp t).2.2
      = { st with servos := (step vec scale move stand j (mkStepContext inp st t)).2.2 } := by
  rcases hstep : step vec scale move stand j (mkStepContext inp st t) with ⟨j2, o, heap⟩
  rw [hstep] at hfail
  cases o with
  | some s2 => exact absurd hfail (by simp)
  | none =>
    constructor
    · simp [inputCallback, hstep]
    · simp [inputCallback, hstep]

theorem c7_witness :
    (inputCallback vecId scaleAxis moveNone standSome false stLegs inpPipe none).2.1
      = false
  ∧ (inputCallback vecId scaleAxis moveNone standSome false stLegs inpPipe none).2.2
      = { stLegs with servos :=
            (step vecId scaleAxis moveNone standSome false
              (mkStepContext inpPipe stLegs none)).2.2 } :=
  c7_failure_keeps_prior_mutations vecId scaleAxis moveNone standSome false
    stLegs inpPipe none rfl
